import Mathlib

/-!
Verification of the frontmatter preprocessor example
(`examples/frontmatter-feature.rs`).

Rust strings are embedded as lists of characters (`Str`); Rust's byte-based
`str::len` is embedded as `byteLen` (sum of UTF-8 sizes), and `str::split('-')`
as `splitDash`.  Fallible operations return `Except`; a Rust panic (the
`expect` in `run`) is a distinct outcome, modelled by `PanicOr.panicked`.
Writes to the standard output and error channels are modelled as event lists
(`OutEvent`, `ErrEvent`).
-/

/-- Embedding of a Rust `String` / `&str` as its sequence of characters. -/
abbrev Str := List Char

/-- The reserved metadata key `"date"` from `run`. -/
def dateKey : Str := "date".toList

/-- The error value of `reformat_date`. -/
def invalidDateMsg : Str := "Invalid date format".toList

/-- The sentinel renderer name refused by `supports_renderer`. -/
def notSupportedLit : Str := "not-supported".toList

/-- The reserved first command-line argument checked by `main`. -/
def supportsLit : Str := "supports".toList

/-- Embedding of Rust's `str::to_uppercase`, codepoint-wise (the spec asks
for locale-independent codepoint-based casing; the claims only exercise it
on digits, hyphens and ASCII letters, where this agrees with Rust). -/
def to_uppercase (s : Str) : Str := s.map Char.toUpper

/-- Embedding of Rust's `str::len`: the length of the UTF-8 encoding in
bytes. -/
def byteLen (s : Str) : Nat := (s.map fun c => c.utf8Size).sum

/-- Embedding of Rust's `date_str.split('-').collect::<Vec<_>>()`:
splitting on every hyphen, keeping empty segments (so the segment count is
always one more than the number of hyphens). -/
def splitDash : Str → List Str
  | [] => [[]]
  | c :: rest =>
    if c = '-' then [] :: splitDash rest
    else
      match splitDash rest with
      | [] => [[c]]
      | s :: ss => (c :: s) :: ss

/-- Embedding of `FrontmatterPreprocessor::reformat_date`: require exactly
3 hyphen-separated segments of byte lengths 4, 2, 2 (`YYYY-MM-DD`) and
rebuild the string as `MM-DD-YYYY`; otherwise fail with
`"Invalid date format"`. -/
def reformat_date (date_str : Str) : Except Str Str :=
  let parts := splitDash date_str
  if parts.length = 3 then
    if byteLen (parts.getD 0 []) = 4 ∧ byteLen (parts.getD 1 []) = 2
        ∧ byteLen (parts.getD 2 []) = 2 then
      Except.ok (parts.getD 1 [] ++ '-' :: (parts.getD 2 [] ++ '-' :: parts.getD 0 []))
    else Except.error invalidDateMsg
  else Except.error invalidDateMsg

/-- Outcome of running Rust code that may panic: either a normal value or a
process-aborting panic carrying the panic message. -/
inductive PanicOr (α : Type) where
  | value : α → PanicOr α
  | panicked : Str → PanicOr α
deriving Repr

/-- The message of the `expect` call in `run`: the format string
`date format incorrect. expected YYYY-MM-DD, received ` followed by the
(already uppercased) value, then `: ` and the `Debug` rendering of the
error returned by `reformat_date`. -/
def expectPanicMsg (val err : Str) : Str :=
  "date format incorrect. expected YYYY-MM-DD, received ".toList ++ val
    ++ ": ".toList ++ '\"' :: (err ++ ['\"'])

/-- The panic message produced when `reformat_date` rejects the (already
uppercased) value `val`. -/
def datePanicMsg (val : Str) : Str := expectPanicMsg val invalidDateMsg

/-- Embedding of the frontmatter loop in `run`: every value is uppercased
in place; a value under the key `"date"` is additionally passed (after
uppercasing) through `reformat_date`, and a failure there panics via
`expect` with the offending value in the message.  The mapping is modelled
as an association list in iteration order (the spec declares insertion
order irrelevant and keys unique). -/
def processFrontmatter : List (Str × Str) → PanicOr (List (Str × Str))
  | [] => PanicOr.value []
  | (key, val) :: rest =>
    let valU := to_uppercase val
    if key = dateKey then
      match reformat_date valU with
      | Except.error e => PanicOr.panicked (expectPanicMsg valU e)
      | Except.ok v =>
        match processFrontmatter rest with
        | PanicOr.panicked m => PanicOr.panicked m
        | PanicOr.value r => PanicOr.value ((key, v) :: r)
    else
      match processFrontmatter rest with
      | PanicOr.panicked m => PanicOr.panicked m
      | PanicOr.value r => PanicOr.value ((key, valU) :: r)

/-- Modelled from the spec (the `mdbook::book` node type is not under
`src/`): a Node of the Document Tree is either a Content Node (`Chapter`:
display name, body text, numbering path, sub-items, source-location path,
ancestor names, metadata mapping) or a structural Separator Node carrying
no metadata. -/
inductive BookItem where
  | Chapter (name content : Str) (number : List Nat) (sub_items : List BookItem)
      (path source_path : Option Str) (parent_names : List Str)
      (frontmatter : List (Str × Str)) : BookItem
  | Separator : BookItem
deriving Repr

/-- Modelled from the spec: the Document Tree, an ordered sequence of
Nodes (mdBook's `Book` with its `sections` field). -/
structure Book where
  sections : List BookItem
deriving Repr

/-- An event on the standard output channel: one of the two `println!`
debug lines of `run` (rendering a frontmatter mapping), or the serialized
result tree written by `handle_preprocessing`. -/
inductive OutEvent where
  | beforeLine : List (Str × Str) → OutEvent
  | afterLine : List (Str × Str) → OutEvent
  | payload : Book → OutEvent
deriving Repr

/-- An event on the standard error channel. -/
inductive ErrEvent where
  | versionMismatchWarning (expected declared : Str)
  | fatalError (msg : Str)
  | panicAbort (msg : Str)
deriving Repr

/-- Modelled from the spec (mdBook's `PreprocessorContext` is not under
`src/`): the Invocation Context — project root, opaque build
configuration, renderer name, and the host's declared version string. -/
structure Ctx where
  root : Str
  config : Str
  renderer : Str
  mdbook_version : Str
deriving Repr

mutual
/-- One step of the walk of `run` over a single node.  Visiting a Content
Node prints the `before:` line, transforms the frontmatter in place
(possibly panicking), prints the `after:` line, and then recurses into the
sub-items (traversal order modelled from the spec: pre-order, depth-first,
node before sub-items; `Book::for_each_mut` itself is not under `src/`).
Separator Nodes are not visited. -/
def runItem : BookItem → List OutEvent × PanicOr BookItem
  | BookItem.Separator => ([], PanicOr.value BookItem.Separator)
  | BookItem.Chapter name content number subs path source_path parent_names fm =>
    match processFrontmatter fm with
    | PanicOr.panicked msg => ([OutEvent.beforeLine fm], PanicOr.panicked msg)
    | PanicOr.value fmNew =>
      match runItems subs with
      | (evs, PanicOr.panicked msg) =>
        (OutEvent.beforeLine fm :: OutEvent.afterLine fmNew :: evs, PanicOr.panicked msg)
      | (evs, PanicOr.value subsNew) =>
        (OutEvent.beforeLine fm :: OutEvent.afterLine fmNew :: evs,
         PanicOr.value (BookItem.Chapter name content number subsNew path source_path
            parent_names fmNew))

/-- The walk of `run` over a sequence of sibling nodes, left to right,
aborting at the first panic. -/
def runItems : List BookItem → List OutEvent × PanicOr (List BookItem)
  | [] => ([], PanicOr.value [])
  | i :: rest =>
    match runItem i with
    | (evs, PanicOr.panicked msg) => (evs, PanicOr.panicked msg)
    | (evs, PanicOr.value iNew) =>
      match runItems rest with
      | (evs₂, PanicOr.panicked msg) => (evs ++ evs₂, PanicOr.panicked msg)
      | (evs₂, PanicOr.value restNew) => (evs ++ evs₂, PanicOr.value (iNew :: restNew))
end

/-- Embedding of `Preprocessor::run` for `FrontmatterPreprocessor`: walk
the whole tree (the context argument is ignored, as in the source); the
returned value is `Ok(book)` unless the walk panicked — the `Err` case of
the Rust signature is never produced. -/
def run (_ctx : Ctx) (book : Book) : List OutEvent × PanicOr (Except Str Book) :=
  match runItems book.sections with
  | (evs, PanicOr.panicked msg) => (evs, PanicOr.panicked msg)
  | (evs, PanicOr.value secs) => (evs, PanicOr.value (Except.ok ⟨secs⟩))

mutual
/-- The shape of a node: everything except the metadata values — variant,
name, body, numbering, paths, ancestor names, metadata keys in order, and
recursively the shape of the sub-items. -/
def shapeItem : BookItem → BookItem
  | BookItem.Separator => BookItem.Separator
  | BookItem.Chapter name content number subs path source_path parent_names fm =>
    BookItem.Chapter name content number (shapeItems subs) path source_path parent_names
      (fm.map fun kv => (kv.1, []))

/-- The shapes of a sequence of sibling nodes. -/
def shapeItems : List BookItem → List BookItem
  | [] => []
  | i :: rest => shapeItem i :: shapeItems rest
end

/-- The first (uppercased) `"date"` value in a frontmatter mapping that
`reformat_date` rejects, in iteration order, if any. -/
def firstBadFm : List (Str × Str) → Option Str
  | [] => none
  | (key, val) :: rest =>
    let valU := to_uppercase val
    if key = dateKey then
      match reformat_date valU with
      | Except.error _ => some valU
      | Except.ok _ => firstBadFm rest
    else firstBadFm rest

mutual
/-- The first rejected date value in a node, in traversal order. -/
def firstBadItem : BookItem → Option Str
  | BookItem.Separator => none
  | BookItem.Chapter _ _ _ subs _ _ _ fm =>
    match firstBadFm fm with
    | some v => some v
    | none => firstBadItems subs

/-- The first rejected date value in a sequence of sibling nodes, in
traversal order. -/
def firstBadItems : List BookItem → Option Str
  | [] => none
  | i :: rest =>
    match firstBadItem i with
    | some v => some v
    | none => firstBadItems rest
end

/-- Embedding of `Preprocessor::supports_renderer`: every renderer except
the literal `"not-supported"` is supported. -/
def supports_renderer (renderer : Str) : Bool :=
  renderer ≠ notSupportedLit

/-- Embedding of `handle_supports`: map the predicate to the process exit
code (0 when supported, 1 otherwise). -/
def handle_supports (renderer : Str) : Nat :=
  if supports_renderer renderer then 0 else 1

/-- Embedding of `FrontmatterPreprocessor::handle_preprocessing`.  The
`semver` crate and the `mdbook::MDBOOK_VERSION` constant are third-party /
out-of-`src` inputs, so version parsing and range matching are passed in
as parameters (`version_parse`, `req_parse`, `req_matches`, and the
constant `mdbook_version_const`); `input` is the outcome of
`CmdPreprocessor::parse_input` on the input channel.  Parse failures
propagate as error values; a range mismatch only appends a warning to the
error channel; on success of `run` the processed book is serialized to the
output channel. -/
def handle_preprocessing {V R : Type}
    (version_parse : Str → Except Str V) (req_parse : Str → Except Str R)
    (req_matches : R → V → Bool) (mdbook_version_const : Str)
    (input : Except Str (Ctx × Book)) :
    List OutEvent × List ErrEvent × PanicOr (Except Str Unit) :=
  match input with
  | Except.error e => ([], [], PanicOr.value (Except.error e))
  | Except.ok (ctx, book) =>
    match version_parse ctx.mdbook_version with
    | Except.error e => ([], [], PanicOr.value (Except.error e))
    | Except.ok book_version =>
      match req_parse mdbook_version_const with
      | Except.error e => ([], [], PanicOr.value (Except.error e))
      | Except.ok version_req =>
        let warns : List ErrEvent :=
          if req_matches version_req book_version then []
          else [ErrEvent.versionMismatchWarning mdbook_version_const ctx.mdbook_version]
        match run ctx book with
        | (outs, PanicOr.panicked msg) => (outs, warns, PanicOr.panicked msg)
        | (outs, PanicOr.value (Except.error e)) =>
          (outs, warns, PanicOr.value (Except.error e))
        | (outs, PanicOr.value (Except.ok b)) =>
          (outs ++ [OutEvent.payload b], warns, PanicOr.value (Except.ok ()))

/-- The observable outcome of one process invocation: exit code and the
two channels. -/
structure ProcOutcome where
  exit_code : Nat
  out_events : List OutEvent
  err_events : List ErrEvent
deriving Repr

/-- The transform-mode branch of `main`: run `handle_preprocessing`; an
error value is reported on the error channel and exits with code 1,
success exits with code 0, and a panic aborts the process (Rust exit code
101) after printing the panic message to the error channel. -/
def mainTransform {V R : Type}
    (version_parse : Str → Except Str V) (req_parse : Str → Except Str R)
    (req_matches : R → V → Bool) (mdbook_version_const : Str)
    (input : Except Str (Ctx × Book)) : ProcOutcome :=
  match handle_preprocessing version_parse req_parse req_matches mdbook_version_const
      input with
  | (outs, errs, PanicOr.panicked msg) => ⟨101, outs, errs ++ [ErrEvent.panicAbort msg]⟩
  | (outs, errs, PanicOr.value (Except.ok _)) => ⟨0, outs, errs⟩
  | (outs, errs, PanicOr.value (Except.error e)) =>
    ⟨1, outs, errs ++ [ErrEvent.fatalError e]⟩

/-- Embedding of `main`: with at least three arguments whose second is the
literal `"supports"`, enter support-check mode (exit code from
`handle_supports`, no channel traffic, input unread); any other argument
shape enters transform mode. -/
def mainRun {V R : Type}
    (version_parse : Str → Except Str V) (req_parse : Str → Except Str R)
    (req_matches : R → V → Bool) (mdbook_version_const : Str)
    (args : List Str) (input : Except Str (Ctx × Book)) : ProcOutcome :=
  match args with
  | _ :: a₁ :: a₂ :: _ =>
    if a₁ = supportsLit then ⟨handle_supports a₂, [], []⟩
    else mainTransform version_parse req_parse req_matches mdbook_version_const input
  | _ => mainTransform version_parse req_parse req_matches mdbook_version_const input

/-- The ten decimal digit characters. -/
def digitChars : Str := "0123456789".toList

/-- Uppercasing a frontmatter mapping: what `run` does to a mapping with
no `"date"` key. -/
def upperFm (fm : List (Str × Str)) : List (Str × Str) :=
  fm.map fun kv => (kv.1, to_uppercase kv.2)

/-- A context with empty fields, for concrete evaluations. -/
def defaultCtx : Ctx := ⟨[], [], [], []⟩

/-! ## Helper lemmas -/

theorem splitDash_ne_nil (s : Str) : splitDash s ≠ [] := by
  cases s with
  | nil => simp [splitDash]
  | cons c t =>
    simp only [splitDash]
    split
    · simp
    · split <;> simp

theorem splitDash_cons_dash (t : Str) : splitDash ('-' :: t) = [] :: splitDash t := by
  simp [splitDash]

theorem splitDash_no_dash : ∀ (s : Str), '-' ∉ s → splitDash s = [s] := by
  intro s
  induction s with
  | nil => intro _; rfl
  | cons c t ih =>
    intro h
    simp only [List.mem_cons, not_or] at h
    simp only [splitDash, ih h.2]
    rw [if_neg fun hc => h.1 hc.symm]

theorem splitDash_append (s t : Str) (h : '-' ∉ s) (u : Str) (us : List Str)
    (ht : splitDash t = u :: us) : splitDash (s ++ t) = (s ++ u) :: us := by
  induction s with
  | nil => simpa using ht
  | cons c s' ih =>
    simp only [List.mem_cons, not_or] at h
    have hrec := ih (by simpa using h.2)
    rw [List.cons_append]
    simp only [splitDash, List.append_eq]
    rw [if_neg fun hc => h.1 hc.symm, hrec]
    simp

theorem splitDash_canonical (y m d : Str) (hy : '-' ∉ y) (hm : '-' ∉ m) (hd : '-' ∉ d) :
    splitDash (y ++ '-' :: (m ++ '-' :: d)) = [y, m, d] := by
  have hd1 : splitDash ('-' :: d) = [[], d] := by
    rw [splitDash_cons_dash, splitDash_no_dash d hd]
  have hm1 : splitDash (m ++ '-' :: d) = [m, d] := by
    have := splitDash_append m ('-' :: d) hm [] [d] hd1
    simpa using this
  have hy1 : splitDash ('-' :: (m ++ '-' :: d)) = [[], m, d] := by
    rw [splitDash_cons_dash, hm1]
  have := splitDash_append y ('-' :: (m ++ '-' :: d)) hy [] [m, d] hy1
  simpa using this

theorem digit_toUpper : ∀ c ∈ digitChars, c.toUpper = c := by decide

theorem dash_toUpper : Char.toUpper '-' = '-' := by decide

theorem dash_notin_digit : '-' ∉ digitChars := by decide

theorem digit_utf8Size : ∀ c ∈ digitChars, c.utf8Size = 1 := by decide

theorem to_uppercase_fixed : ∀ (s : Str), (∀ c ∈ s, c.toUpper = c) → to_uppercase s = s := by
  intro s
  induction s with
  | nil => intro _; rfl
  | cons c t ih =>
    intro h
    simp only [to_uppercase, List.map_cons] at ih ⊢
    rw [h c (by simp), ih fun a ha => h a (by simp [ha])]

theorem byteLen_of_digits : ∀ (s : Str), (∀ c ∈ s, c ∈ digitChars) → byteLen s = s.length := by
  intro s
  induction s with
  | nil => intro _; rfl
  | cons c t ih =>
    intro h
    simp only [byteLen, List.map_cons, List.sum_cons] at ih ⊢
    rw [digit_utf8Size c (h c (by simp)), ih fun a ha => h a (by simp [ha])]
    simp [Nat.add_comm]

theorem notin_of_digits (s : Str) (h : ∀ c ∈ s, c ∈ digitChars) : '-' ∉ s :=
  fun hm => dash_notin_digit (h '-' hm)

theorem reformat_date_ok (y m d : Str) (hy : '-' ∉ y) (hm : '-' ∉ m) (hd : '-' ∉ d)
    (hly : byteLen y = 4) (hlm : byteLen m = 2) (hld : byteLen d = 2) :
    reformat_date (y ++ '-' :: (m ++ '-' :: d)) = Except.ok (m ++ '-' :: (d ++ '-' :: y)) := by
  simp only [reformat_date, splitDash_canonical y m d hy hm hd]
  simp [hly, hlm, hld]

theorem reformat_date_err (v : Str)
    (h : ¬((splitDash v).length = 3 ∧ byteLen ((splitDash v).getD 0 []) = 4
        ∧ byteLen ((splitDash v).getD 1 []) = 2 ∧ byteLen ((splitDash v).getD 2 []) = 2)) :
    reformat_date v = Except.error invalidDateMsg := by
  simp only [reformat_date]
  by_cases h3 : (splitDash v).length = 3
  · rw [if_pos h3, if_neg fun hc => h ⟨h3, hc⟩]
  · rw [if_neg h3]

theorem reformat_ok_iff (v : Str) :
    (∃ r, reformat_date v = Except.ok r) ↔
      ((splitDash v).length = 3 ∧ byteLen ((splitDash v).getD 0 []) = 4
        ∧ byteLen ((splitDash v).getD 1 []) = 2 ∧ byteLen ((splitDash v).getD 2 []) = 2) := by
  constructor
  · intro hr
    obtain ⟨r, hr⟩ := hr
    by_cases h3 : (splitDash v).length = 3
    · by_cases hl : byteLen ((splitDash v).getD 0 []) = 4
          ∧ byteLen ((splitDash v).getD 1 []) = 2 ∧ byteLen ((splitDash v).getD 2 []) = 2
      · exact ⟨h3, hl⟩
      · simp only [reformat_date] at hr
        rw [if_pos h3, if_neg hl] at hr
        simp at hr
    · simp only [reformat_date] at hr
      rw [if_neg h3] at hr
      simp at hr
  · intro hl
    refine ⟨(splitDash v).getD 1 [] ++ '-' :: ((splitDash v).getD 2 [] ++ '-' :: (splitDash v).getD 0 []), ?_⟩
    simp only [reformat_date]
    rw [if_pos hl.1, if_pos hl.2]

theorem reformat_err_msg (v e : Str) (h : reformat_date v = Except.error e) :
    e = invalidDateMsg := by
  simp only [reformat_date] at h
  split at h
  · split at h
    · simp at h
    · simp only [Except.error.injEq] at h
      exact h.symm
  · simp only [Except.error.injEq] at h
    exact h.symm

theorem pf_nodate : ∀ (fm : List (Str × Str)), (∀ kv ∈ fm, kv.1 ≠ dateKey) →
    processFrontmatter fm = PanicOr.value (upperFm fm) := by
  intro fm
  induction fm with
  | nil => intro _; rfl
  | cons kv rest ih =>
    intro h
    obtain ⟨k, v⟩ := kv
    simp only [processFrontmatter]
    rw [if_neg (h (k, v) (by simp))]
    rw [ih fun a ha => h a (by simp [ha])]
    simp [upperFm]

theorem pf_append_nodate (l r : List (Str × Str)) (h : ∀ kv ∈ l, kv.1 ≠ dateKey) :
    processFrontmatter (l ++ r) =
      match processFrontmatter r with
      | PanicOr.value rr => PanicOr.value (upperFm l ++ rr)
      | PanicOr.panicked m => PanicOr.panicked m := by
  induction l with
  | nil =>
    cases hr : processFrontmatter r <;> simp [hr, upperFm]
  | cons kv l' ih =>
    obtain ⟨k, v⟩ := kv
    rw [List.cons_append]
    simp only [processFrontmatter]
    rw [if_neg (h (k, v) (by simp))]
    rw [ih fun a ha => h a (by simp [ha])]
    cases hr : processFrontmatter r <;> simp [upperFm]

theorem pf_with_date_ok (fm₁ fm₂ : List (Str × Str)) (v w : Str)
    (h₁ : ∀ kv ∈ fm₁, kv.1 ≠ dateKey) (h₂ : ∀ kv ∈ fm₂, kv.1 ≠ dateKey)
    (hr : reformat_date (to_uppercase v) = Except.ok w) :
    processFrontmatter (fm₁ ++ (dateKey, v) :: fm₂) =
      PanicOr.value (upperFm fm₁ ++ (dateKey, w) :: upperFm fm₂) := by
  rw [pf_append_nodate fm₁ _ h₁]
  simp [processFrontmatter, hr, pf_nodate fm₂ h₂]

theorem pf_with_date_err (fm₁ fm₂ : List (Str × Str)) (v e : Str)
    (h₁ : ∀ kv ∈ fm₁, kv.1 ≠ dateKey)
    (hr : reformat_date (to_uppercase v) = Except.error e) :
    processFrontmatter (fm₁ ++ (dateKey, v) :: fm₂) =
      PanicOr.panicked (expectPanicMsg (to_uppercase v) e) := by
  rw [pf_append_nodate fm₁ _ h₁]
  simp [processFrontmatter, hr]

theorem pf_spec : ∀ (fm : List (Str × Str)),
    (∀ v, firstBadFm fm = some v → processFrontmatter fm = PanicOr.panicked (datePanicMsg v))
    ∧ (firstBadFm fm = none → ∃ r, processFrontmatter fm = PanicOr.value r) := by
  intro fm
  induction fm with
  | nil =>
    exact ⟨fun v h => by simp [firstBadFm] at h, fun _ => ⟨[], rfl⟩⟩
  | cons kv rest ih =>
    obtain ⟨k, v⟩ := kv
    by_cases hk : k = dateKey
    · subst hk
      cases hr : reformat_date (to_uppercase v) with
      | error e =>
        have he : e = invalidDateMsg := reformat_err_msg _ _ hr
        subst he
        constructor
        · intro w hw
          simp only [firstBadFm, hr, if_true, eq_self_iff_true, Option.some.injEq] at hw
          subst hw
          simp [processFrontmatter, hr, datePanicMsg]
        · intro hnone
          simp [firstBadFm, hr] at hnone
      | ok w =>
        constructor
        · intro u hu
          simp only [firstBadFm, hr, if_true, eq_self_iff_true] at hu
          have hrec := ih.1 u hu
          simp [processFrontmatter, hr, hrec]
        · intro hnone
          simp only [firstBadFm, hr, if_true, eq_self_iff_true] at hnone
          obtain ⟨r, hrr⟩ := ih.2 hnone
          exact ⟨(dateKey, w) :: r, by simp [processFrontmatter, hr, hrr]⟩
    · constructor
      · intro u hu
        simp only [firstBadFm] at hu
        rw [if_neg hk] at hu
        have hrec := ih.1 u hu
        simp only [processFrontmatter] at hrec ⊢
        rw [if_neg hk, hrec]
      · intro hnone
        simp only [firstBadFm] at hnone
        rw [if_neg hk] at hnone
        obtain ⟨r, hrr⟩ := ih.2 hnone
        refine ⟨(k, to_uppercase v) :: r, ?_⟩
        simp only [processFrontmatter]
        rw [if_neg hk, hrr]

theorem pf_keys : ∀ (fm r : List (Str × Str)), processFrontmatter fm = PanicOr.value r →
    r.map Prod.fst = fm.map Prod.fst := by
  intro fm
  induction fm with
  | nil =>
    intro r h
    simp only [processFrontmatter, PanicOr.value.injEq] at h
    subst h
    rfl
  | cons kv rest ih =>
    intro r h
    obtain ⟨k, v⟩ := kv
    simp only [processFrontmatter] at h
    by_cases hk : k = dateKey
    · subst hk
      rw [if_pos rfl] at h
      cases hr : reformat_date (to_uppercase v) with
      | error e => rw [hr] at h; simp at h
      | ok w =>
        rw [hr] at h
        cases hrest : processFrontmatter rest with
        | panicked m => rw [hrest] at h; simp at h
        | value rr =>
          rw [hrest] at h
          simp only [PanicOr.value.injEq] at h
          subst h
          simp [ih rr hrest]
    · rw [if_neg hk] at h
      cases hrest : processFrontmatter rest with
      | panicked m => rw [hrest] at h; simp at h
      | value rr =>
        rw [hrest] at h
        simp only [PanicOr.value.injEq] at h
        subst h
        simp [ih rr hrest]

theorem keys_blank (l₁ l₂ : List (Str × Str)) (h : l₁.map Prod.fst = l₂.map Prod.fst) :
    (l₁.map fun kv => (kv.1, ([] : Str))) = l₂.map fun kv => (kv.1, []) := by
  have e : ∀ (l : List (Str × Str)),
      (l.map fun kv => (kv.1, ([] : Str))) = (l.map Prod.fst).map fun k => (k, []) := by
    intro l
    rw [List.map_map]
    rfl
  rw [e, e, h]

mutual
/-- Characterization of the walk at a single node: if the node holds a bad
date value the walk panics with the corresponding message; otherwise it
yields a node of the same shape. -/
theorem runItem_spec (i : BookItem) :
    (∀ v, firstBadItem i = some v → (runItem i).2 = PanicOr.panicked (datePanicMsg v))
    ∧ (firstBadItem i = none →
        ∃ iN, (runItem i).2 = PanicOr.value iN ∧ shapeItem iN = shapeItem i) := by
  cases i with
  | Separator =>
    exact ⟨fun v h => by simp [firstBadItem] at h,
           fun _ => ⟨BookItem.Separator, rfl, rfl⟩⟩
  | Chapter name content number subs path source_path parent_names fm =>
    cases hfb : firstBadFm fm with
    | some v =>
      have hpf := (pf_spec fm).1 v hfb
      constructor
      · intro u hu
        simp only [firstBadItem, hfb, Option.some.injEq] at hu
        subst hu
        simp [runItem, hpf]
      · intro hnone
        simp [firstBadItem, hfb] at hnone
    | none =>
      obtain ⟨fmN, hpf⟩ := (pf_spec fm).2 hfb
      have hkeys := pf_keys fm fmN hpf
      have hsub := runItem_spec_aux subs
      constructor
      · intro u hu
        simp only [firstBadItem, hfb] at hu
        have h2 := hsub.1 u hu
        rcases hR : runItems subs with ⟨evs, res⟩
        rw [hR] at h2
        simp only at h2
        subst h2
        simp [runItem, hpf, hR]
      · intro hnone
        simp only [firstBadItem, hfb] at hnone
        obtain ⟨subsN, h2, hshape⟩ := hsub.2 hnone
        rcases hR : runItems subs with ⟨evs, res⟩
        rw [hR] at h2
        simp only at h2
        subst h2
        refine ⟨BookItem.Chapter name content number subsN path source_path parent_names fmN,
          ?_, ?_⟩
        · simp [runItem, hpf, hR]
        · simp only [shapeItem]
          rw [hshape, keys_blank fmN fm hkeys]

/-- Characterization of the walk over a sequence of sibling nodes. -/
theorem runItem_spec_aux (l : List BookItem) :
    (∀ v, firstBadItems l = some v → (runItems l).2 = PanicOr.panicked (datePanicMsg v))
    ∧ (firstBadItems l = none →
        ∃ lN, (runItems l).2 = PanicOr.value lN ∧ shapeItems lN = shapeItems l) := by
  cases l with
  | nil =>
    exact ⟨fun v h => by simp [firstBadItems] at h, fun _ => ⟨[], rfl, rfl⟩⟩
  | cons i rest =>
    have hi := runItem_spec i
    have hrest := runItem_spec_aux rest
    cases hfb : firstBadItem i with
    | some v =>
      have h2 := hi.1 v hfb
      constructor
      · intro u hu
        simp only [firstBadItems, hfb, Option.some.injEq] at hu
        subst hu
        rcases hR : runItem i with ⟨evs, res⟩
        rw [hR] at h2
        simp only at h2
        subst h2
        simp [runItems, hR]
      · intro hnone
        simp [firstBadItems, hfb] at hnone
    | none =>
      obtain ⟨iN, h2, hshape⟩ := hi.2 hfb
      rcases hR : runItem i with ⟨evs, res⟩
      rw [hR] at h2
      simp only at h2
      subst h2
      constructor
      · intro u hu
        simp only [firstBadItems, hfb] at hu
        have h3 := hrest.1 u hu
        rcases hR2 : runItems rest with ⟨evs₂, res₂⟩
        rw [hR2] at h3
        simp only at h3
        subst h3
        simp [runItems, hR, hR2]
      · intro hnone
        simp only [firstBadItems, hfb] at hnone
        obtain ⟨restN, h3, hshape₂⟩ := hrest.2 hnone
        rcases hR2 : runItems rest with ⟨evs₂, res₂⟩
        rw [hR2] at h3
        simp only at h3
        subst h3
        refine ⟨iN :: restN, ?_, ?_⟩
        · simp [runItems, hR, hR2]
        · simp [shapeItems, hshape, hshape₂]
end

/-- The transform on a mapping holding a canonical all-digit date: shared
core of the date-rewriting results. -/
theorem pf_canonical_date
    (fm₁ fm₂ : List (Str × Str)) (y m d : Str)
    (h₁ : ∀ kv ∈ fm₁, kv.1 ≠ dateKey) (h₂ : ∀ kv ∈ fm₂, kv.1 ≠ dateKey)
    (hy : ∀ c ∈ y, c ∈ digitChars) (hm : ∀ c ∈ m, c ∈ digitChars)
    (hd : ∀ c ∈ d, c ∈ digitChars)
    (hly : y.length = 4) (hlm : m.length = 2) (hld : d.length = 2) :
    processFrontmatter (fm₁ ++ (dateKey, y ++ '-' :: (m ++ '-' :: d)) :: fm₂)
      = PanicOr.value (upperFm fm₁ ++ (dateKey, m ++ '-' :: (d ++ '-' :: y)) :: upperFm fm₂) := by
  have hyd := notin_of_digits y hy
  have hmd := notin_of_digits m hm
  have hdd := notin_of_digits d hd
  have hfix : ∀ c ∈ y ++ '-' :: (m ++ '-' :: d), c.toUpper = c := by
    intro c hc
    rcases List.mem_append.1 hc with h | h
    · exact digit_toUpper c (hy c h)
    · rcases List.mem_cons.1 h with rfl | h
      · exact dash_toUpper
      · rcases List.mem_append.1 h with h | h
        · exact digit_toUpper c (hm c h)
        · rcases List.mem_cons.1 h with rfl | h
          · exact dash_toUpper
          · exact digit_toUpper c (hd c h)
  have hr : reformat_date (to_uppercase (y ++ '-' :: (m ++ '-' :: d)))
      = Except.ok (m ++ '-' :: (d ++ '-' :: y)) := by
    rw [to_uppercase_fixed _ hfix]
    exact reformat_date_ok y m d hyd hmd hdd
      (by rw [byteLen_of_digits y hy, hly]) (by rw [byteLen_of_digits m hm, hlm])
      (by rw [byteLen_of_digits d hd, hld])
  exact pf_with_date_ok fm₁ fm₂ _ _ h₁ h₂ hr

/-- C2: for every metadata mapping containing the key `"date"` with a
value in canonical layout `YYYY-MM-DD` (digit segments of lengths 4, 2, 2),
the transform rewrites that value to `MM-DD-YYYY` after uppercasing (a
no-op on digits and hyphens), and uppercases the remaining values. -/
theorem transform_reformats_canonical_date
    (fm₁ fm₂ : List (Str × Str)) (y m d : Str)
    (h₁ : ∀ kv ∈ fm₁, kv.1 ≠ dateKey) (h₂ : ∀ kv ∈ fm₂, kv.1 ≠ dateKey)
    (hy : ∀ c ∈ y, c ∈ digitChars) (hm : ∀ c ∈ m, c ∈ digitChars)
    (hd : ∀ c ∈ d, c ∈ digitChars)
    (hly : y.length = 4) (hlm : m.length = 2) (hld : d.length = 2) :
    processFrontmatter (fm₁ ++ (dateKey, y ++ '-' :: (m ++ '-' :: d)) :: fm₂)
      = PanicOr.value (upperFm fm₁ ++ (dateKey, m ++ '-' :: (d ++ '-' :: y)) :: upperFm fm₂) :=
  pf_canonical_date fm₁ fm₂ y m d h₁ h₂ hy hm hd hly hlm hld

/-- C2 witness: the transform maps `date: 2024-08-02` (with an `author`
entry) to `date: 08-02-2024`, as in the repository's own test. -/
theorem transform_reformats_canonical_date_witness :
    processFrontmatter ([("author".toList, "grant".toList)]
        ++ (dateKey, "2024".toList ++ '-' :: ("08".toList ++ '-' :: "02".toList)) :: [])
      = PanicOr.value (upperFm [("author".toList, "grant".toList)]
        ++ (dateKey, "08".toList ++ '-' :: ("02".toList ++ '-' :: "2024".toList)) :: upperFm []) :=
  transform_reformats_canonical_date [("author".toList, "grant".toList)] []
    ("2024".toList) ("08".toList) ("02".toList)
    (by decide) (by decide) (by decide) (by decide) (by decide)
    (by decide) (by decide) (by decide)

/-- C3: `reformat_date` accepts a value exactly when splitting it on the
hyphen character yields exactly 3 segments of (byte) lengths 4, 2, 2; any
other shape fails with the invalid-date error.  The check is purely
syntactic (the witness shows month 13 passing). -/
theorem reformat_date_syntactic_check (v : Str) :
    ((∃ r, reformat_date v = Except.ok r) ↔
      ((splitDash v).length = 3 ∧ byteLen ((splitDash v).getD 0 []) = 4
        ∧ byteLen ((splitDash v).getD 1 []) = 2 ∧ byteLen ((splitDash v).getD 2 []) = 2))
    ∧ (¬((splitDash v).length = 3 ∧ byteLen ((splitDash v).getD 0 []) = 4
        ∧ byteLen ((splitDash v).getD 1 []) = 2 ∧ byteLen ((splitDash v).getD 2 []) = 2) →
      reformat_date v = Except.error invalidDateMsg) :=
  ⟨reformat_ok_iff v, reformat_date_err v⟩

/-- C3 witness: month 13 passes the purely syntactic check, while a
one-digit month segment is rejected with the invalid-date error. -/
theorem reformat_date_syntactic_check_witness :
    reformat_date ("2024-13-01".toList) = Except.ok ("13-01-2024".toList)
    ∧ reformat_date ("2024-8-02".toList) = Except.error invalidDateMsg :=
  ⟨rfl, (reformat_date_syntactic_check ("2024-8-02".toList)).2 (by decide)⟩

/-- C5: on any metadata mapping without the `"date"` key, the transform
succeeds, replaces every value with its upper-cased form, and leaves the
key sequence exactly unchanged. -/
theorem transform_no_date_uppercases (fm : List (Str × Str))
    (h : ∀ kv ∈ fm, kv.1 ≠ dateKey) :
    processFrontmatter fm = PanicOr.value (upperFm fm)
    ∧ (upperFm fm).map Prod.fst = fm.map Prod.fst := by
  refine ⟨pf_nodate fm h, ?_⟩
  simp only [upperFm, List.map_map]
  rfl

/-- C5 witness: a one-entry mapping without a date key is uppercased with
its key untouched. -/
theorem transform_no_date_uppercases_witness :
    processFrontmatter [("author".toList, "grant (@grantkee)".toList)]
      = PanicOr.value (upperFm [("author".toList, "grant (@grantkee)".toList)])
    ∧ (upperFm [("author".toList, "grant (@grantkee)".toList)]).map Prod.fst
      = [("author".toList, "grant (@grantkee)".toList)].map Prod.fst :=
  transform_no_date_uppercases [("author".toList, "grant (@grantkee)".toList)] (by decide)

/-- C7: the renderer support predicate returns `false` for exactly the
reserved sentinel `"not-supported"` and `true` for every other name,
including the empty string. -/
theorem supports_renderer_spec :
    supports_renderer notSupportedLit = false
    ∧ (∀ r, r ≠ notSupportedLit → supports_renderer r = true)
    ∧ supports_renderer [] = true := by
  refine ⟨by decide, ?_, by decide⟩
  intro r h
  simp [supports_renderer]
  exact h

/-- C7 witness: the sentinel is refused and an ordinary renderer name is
accepted. -/
theorem supports_renderer_spec_witness :
    supports_renderer notSupportedLit = false
    ∧ supports_renderer ("html".toList) = true :=
  ⟨supports_renderer_spec.1, supports_renderer_spec.2.1 ("html".toList) (by decide)⟩

/-- C10: the transform is not idempotent on date-bearing mappings: on a
mapping holding a canonical all-digit `YYYY-MM-DD` date, the transform
succeeds and rewrites the date to `MM-DD-YYYY`, but applying the transform
to that output panics, because the rewritten value's segments have lengths
2, 2, 4 and no longer pass the 4/2/2 check. -/
theorem transform_not_idempotent
    (fm₁ fm₂ : List (Str × Str)) (y m d : Str)
    (h₁ : ∀ kv ∈ fm₁, kv.1 ≠ dateKey) (h₂ : ∀ kv ∈ fm₂, kv.1 ≠ dateKey)
    (hy : ∀ c ∈ y, c ∈ digitChars) (hm : ∀ c ∈ m, c ∈ digitChars)
    (hd : ∀ c ∈ d, c ∈ digitChars)
    (hly : y.length = 4) (hlm : m.length = 2) (hld : d.length = 2) :
    processFrontmatter (fm₁ ++ (dateKey, y ++ '-' :: (m ++ '-' :: d)) :: fm₂)
      = PanicOr.value (upperFm fm₁ ++ (dateKey, m ++ '-' :: (d ++ '-' :: y)) :: upperFm fm₂)
    ∧ processFrontmatter (upperFm fm₁ ++ (dateKey, m ++ '-' :: (d ++ '-' :: y)) :: upperFm fm₂)
      = PanicOr.panicked (datePanicMsg (m ++ '-' :: (d ++ '-' :: y))) := by
  refine ⟨pf_canonical_date fm₁ fm₂ y m d h₁ h₂ hy hm hd hly hlm hld, ?_⟩
  have h₁U : ∀ kv ∈ upperFm fm₁, kv.1 ≠ dateKey := by
    intro kv hkv
    simp only [upperFm, List.mem_map] at hkv
    obtain ⟨kv₀, hmem, rfl⟩ := hkv
    exact h₁ kv₀ hmem
  have hfix : ∀ c ∈ m ++ '-' :: (d ++ '-' :: y), c.toUpper = c := by
    intro c hc
    rcases List.mem_append.1 hc with h | h
    · exact digit_toUpper c (hm c h)
    · rcases List.mem_cons.1 h with rfl | h
      · exact dash_toUpper
      · rcases List.mem_append.1 h with h | h
        · exact digit_toUpper c (hd c h)
        · rcases List.mem_cons.1 h with rfl | h
          · exact dash_toUpper
          · exact digit_toUpper c (hy c h)
  have hsplit : splitDash (m ++ '-' :: (d ++ '-' :: y)) = [m, d, y] :=
    splitDash_canonical m d y (notin_of_digits m hm) (notin_of_digits d hd)
      (notin_of_digits y hy)
  have hrErr : reformat_date (to_uppercase (m ++ '-' :: (d ++ '-' :: y)))
      = Except.error invalidDateMsg := by
    rw [to_uppercase_fixed _ hfix]
    apply reformat_date_err
    rw [hsplit]
    intro hcon
    have h4 : byteLen m = 4 := by simpa using hcon.2.1
    rw [byteLen_of_digits m hm, hlm] at h4
    exact absurd h4 (by decide)
  have := pf_with_date_err (upperFm fm₁) (upperFm fm₂) (m ++ '-' :: (d ++ '-' :: y))
    invalidDateMsg h₁U hrErr
  rw [this, to_uppercase_fixed _ hfix]
  rfl

/-- C10 witness: `2024-08-02` is rewritten to `08-02-2024`, and running the
transform again on that output panics. -/
theorem transform_not_idempotent_witness :
    processFrontmatter ([] ++ (dateKey, "2024".toList ++ '-' :: ("08".toList ++ '-' :: "02".toList)) :: [])
      = PanicOr.value (upperFm [] ++ (dateKey, "08".toList ++ '-' :: ("02".toList ++ '-' :: "2024".toList)) :: upperFm [])
    ∧ processFrontmatter (upperFm [] ++ (dateKey, "08".toList ++ '-' :: ("02".toList ++ '-' :: "2024".toList)) :: upperFm [])
      = PanicOr.panicked (datePanicMsg ("08".toList ++ '-' :: ("02".toList ++ '-' :: "2024".toList))) :=
  transform_not_idempotent [] [] ("2024".toList) ("08".toList) ("02".toList)
    (by decide) (by decide) (by decide) (by decide) (by decide)
    (by decide) (by decide) (by decide)

/-- A one-chapter book whose date value is rejected by the syntactic
check. -/
def badBook : Book :=
  ⟨[BookItem.Chapter ("c".toList) ("x".toList) [] [] none none []
      [(dateKey, "oops".toList)]]⟩

/-- A book with a single Content Node carrying an empty metadata
mapping. -/
def oneChapterBook : Book :=
  ⟨[BookItem.Chapter ("c".toList) ("x".toList) [] [] none none [] []]⟩

/-- A book with one Content Node and one Separator Node. -/
def wBook6 : Book :=
  ⟨[BookItem.Chapter ("c".toList) ("x".toList) [1] [] none none []
      [("author".toList, "ab".toList)],
    BookItem.Separator]⟩

/-- The tree produced by walking `wBook6`. -/
def wBook6Out : Book :=
  ⟨[BookItem.Chapter ("c".toList) ("x".toList) [1] [] none none []
      [("author".toList, "AB".toList)],
    BookItem.Separator]⟩

/-- The stdout events produced by walking `wBook6`. -/
def wEvs6 : List OutEvent :=
  [OutEvent.beforeLine [("author".toList, "ab".toList)],
   OutEvent.afterLine [("author".toList, "AB".toList)]]

/-- A book with no sections. -/
def emptyBook : Book := ⟨[]⟩

/-- C1 counterexample: on a book whose date value is invalid, `run` does
not hand the caller an error value — the outcome is a process-aborting
panic (the `expect` in the source), whose message carries the offending
(uppercased) value. -/
theorem run_date_failure_is_abort_cex :
    (run defaultCtx badBook).2 = PanicOr.panicked (datePanicMsg ("OOPS".toList)) := rfl

/-- C1 (amended): when the metadata transformation rejects a date value,
the walk aborts at the first offending node (the panic message is
determined by the first rejected value in traversal order, so no further
node is processed) and no partial result is produced — but the failure is
a process abort (panic), never an error value returned to the caller;
without any rejected value the walk returns the whole transformed tree. -/
theorem run_failure_is_panic_not_error (ctx : Ctx) (book : Book) :
    (∀ evs e, run ctx book ≠ (evs, PanicOr.value (Except.error e)))
    ∧ (∀ v, firstBadItems book.sections = some v →
        (run ctx book).2 = PanicOr.panicked (datePanicMsg v))
    ∧ (firstBadItems book.sections = none →
        ∃ b, (run ctx book).2 = PanicOr.value (Except.ok b)) := by
  refine ⟨?_, ?_, ?_⟩
  · intro evs e h
    rcases hR : runItems book.sections with ⟨evs₀, res₀⟩
    cases res₀ with
    | panicked m => simp [run, hR] at h
    | value secs => simp [run, hR] at h
  · intro v hv
    have hp := (runItem_spec_aux book.sections).1 v hv
    rcases hR : runItems book.sections with ⟨evs₀, res₀⟩
    rw [hR] at hp
    simp only at hp
    subst hp
    simp [run, hR]
  · intro hnone
    obtain ⟨lN, hval, _⟩ := (runItem_spec_aux book.sections).2 hnone
    rcases hR : runItems book.sections with ⟨evs₀, res₀⟩
    rw [hR] at hval
    simp only at hval
    subst hval
    exact ⟨⟨lN⟩, by simp [run, hR]⟩

/-- C1 witness: the amended claim at the concrete bad book. -/
theorem run_failure_is_panic_not_error_witness :
    firstBadItems badBook.sections = some ("OOPS".toList)
    ∧ (run defaultCtx badBook).2 = PanicOr.panicked (datePanicMsg ("OOPS".toList)) :=
  ⟨rfl, (run_failure_is_panic_not_error defaultCtx badBook).2.1 ("OOPS".toList) rfl⟩

/-- C4: contrary to the claim, the Tree Walker does write to the output
channel: visiting any Content Node prints the two `println!` debug lines
(`before:`/`after:`) to stdout, so the serialized tree is not the only
stdout traffic. -/
theorem tree_walker_writes_debug_to_stdout :
    (run defaultCtx oneChapterBook).1 = [OutEvent.beforeLine [], OutEvent.afterLine []]
    ∧ (run defaultCtx oneChapterBook).1 ≠ [] := by
  refine ⟨rfl, ?_⟩
  intro h
  have he : (run defaultCtx oneChapterBook).1
      = [OutEvent.beforeLine [], OutEvent.afterLine []] := rfl
  rw [he] at h
  exact List.cons_ne_nil _ _ h

/-- C6: a successful walk preserves the tree's shape exactly — variant
placement, node count, ordering, nesting, every non-metadata field, and
the metadata key sequences; only metadata values change.  Separator Nodes
are not visited (no events, no mutation). -/
theorem run_preserves_tree_shape (ctx : Ctx) (book : Book) (evs : List OutEvent)
    (result : Book)
    (h : run ctx book = (evs, PanicOr.value (Except.ok result))) :
    shapeItems result.sections = shapeItems book.sections
    ∧ runItem BookItem.Separator = ([], PanicOr.value BookItem.Separator) := by
  refine ⟨?_, rfl⟩
  rcases hR : runItems book.sections with ⟨evs₀, res₀⟩
  cases res₀ with
  | panicked m => simp [run, hR] at h
  | value secs =>
    simp only [run, hR] at h
    injection h with h1 h2
    injection h2 with h3
    injection h3 with h4
    subst h4
    cases hfb : firstBadItems book.sections with
    | some v =>
      have hp := (runItem_spec_aux book.sections).1 v hfb
      rw [hR] at hp
      simp at hp
    | none =>
      obtain ⟨lN, hval, hshape⟩ := (runItem_spec_aux book.sections).2 hfb
      rw [hR] at hval
      simp only at hval
      injection hval with h5
      subst h5
      exact hshape

/-- C6 witness: the walk of a book with one Content Node and one Separator
Node preserves the shape, and the Separator is untouched. -/
theorem run_preserves_tree_shape_witness :
    shapeItems wBook6Out.sections = shapeItems wBook6.sections
    ∧ runItem BookItem.Separator = ([], PanicOr.value BookItem.Separator) :=
  run_preserves_tree_shape defaultCtx wBook6 wEvs6 wBook6Out rfl

/-- C8: support-check mode is entered exactly when the first invocation
argument is the literal `"supports"` and a renderer-name argument follows;
that mode exits with code 0 when the renderer is supported and 1
otherwise, reads no input and writes nothing to either channel; any other
argument shape enters transform mode. -/
theorem main_mode_dispatch {V R : Type}
    (pv : Str → Except Str V) (pr : Str → Except Str R) (mm : R → V → Bool)
    (mv : Str) (input : Except Str (Ctx × Book)) :
    (∀ a₀ a₂ rest, mainRun pv pr mm mv (a₀ :: supportsLit :: a₂ :: rest) input
        = ⟨if supports_renderer a₂ then 0 else 1, [], []⟩)
    ∧ (∀ a₀ a₁ a₂ rest, a₁ ≠ supportsLit →
        mainRun pv pr mm mv (a₀ :: a₁ :: a₂ :: rest) input
          = mainTransform pv pr mm mv input)
    ∧ (∀ args, args.length ≤ 2 →
        mainRun pv pr mm mv args input = mainTransform pv pr mm mv input) := by
  refine ⟨?_, ?_, ?_⟩
  · intro a₀ a₂ rest
    simp [mainRun, handle_supports]
  · intro a₀ a₁ a₂ rest h
    simp [mainRun, h]
  · intro args h
    rcases args with _ | ⟨a, args⟩
    · rfl
    rcases args with _ | ⟨b, args⟩
    · rfl
    rcases args with _ | ⟨c, args⟩
    · rfl
    · exfalso
      simp only [List.length_cons] at h
      omega

/-- C8 witness: `supports not-supported` exits 1, `supports html` would
exit 0 (via the if), and a non-`supports` argument shape goes to transform
mode. -/
theorem main_mode_dispatch_witness :
    mainRun (fun _ => Except.ok ()) (fun _ => Except.ok ()) (fun _ _ => true) []
        (("plugin".toList) :: supportsLit :: notSupportedLit :: []) (Except.error [])
      = ⟨if supports_renderer notSupportedLit then 0 else 1, [], []⟩
    ∧ mainRun (fun _ => Except.ok ()) (fun _ => Except.ok ()) (fun _ _ => true) []
        (("plugin".toList) :: ("x".toList) :: ("y".toList) :: []) (Except.error [])
      = mainTransform (fun _ => Except.ok ()) (fun _ => Except.ok ()) (fun _ _ => true) []
          (Except.error []) :=
  ⟨(main_mode_dispatch _ _ _ _ _).1 _ _ _,
   (main_mode_dispatch _ _ _ _ _).2.1 _ _ _ _ (by decide)⟩

/-- C9: when both version strings parse but the declared version does not
match the expected range, only a warning is appended to the error channel
and processing continues: stdout and the result are identical to the
matching-version outcome, and when the walk succeeds the fully transformed
tree is serialized with a success result. -/
theorem version_mismatch_warning_only {V R : Type}
    (pv : Str → Except Str V) (pr : Str → Except Str R)
    (mm mmOk : R → V → Bool) (mv : Str) (ctx : Ctx) (book : Book) (v : V) (r : R)
    (hv : pv ctx.mdbook_version = Except.ok v) (hr : pr mv = Except.ok r)
    (hm : mm r v = false) (hmOk : mmOk r v = true) :
    ((handle_preprocessing pv pr mm mv (Except.ok (ctx, book))).1
      = (handle_preprocessing pv pr mmOk mv (Except.ok (ctx, book))).1)
    ∧ ((handle_preprocessing pv pr mm mv (Except.ok (ctx, book))).2.2
      = (handle_preprocessing pv pr mmOk mv (Except.ok (ctx, book))).2.2)
    ∧ ((handle_preprocessing pv pr mm mv (Except.ok (ctx, book))).2.1
      = [ErrEvent.versionMismatchWarning mv ctx.mdbook_version])
    ∧ ((handle_preprocessing pv pr mmOk mv (Except.ok (ctx, book))).2.1 = [])
    ∧ (∀ evs secs, runItems book.sections = (evs, PanicOr.value secs) →
        (handle_preprocessing pv pr mm mv (Except.ok (ctx, book))).1
          = evs ++ [OutEvent.payload ⟨secs⟩]
        ∧ (handle_preprocessing pv pr mm mv (Except.ok (ctx, book))).2.2
          = PanicOr.value (Except.ok ())) := by
  rcases hRi : runItems book.sections with ⟨evs₀, res₀⟩
  cases res₀ with
  | panicked msg =>
    refine ⟨?_, ?_, ?_, ?_, ?_⟩
    · simp [handle_preprocessing, hv, hr, hm, hmOk, run, hRi]
    · simp [handle_preprocessing, hv, hr, hm, hmOk, run, hRi]
    · simp [handle_preprocessing, hv, hr, hm, run, hRi]
    · simp [handle_preprocessing, hv, hr, hmOk, run, hRi]
    · intro evs secs hes
      injection hes with h1 h2
      simp at h2
  | value secs₀ =>
    refine ⟨?_, ?_, ?_, ?_, ?_⟩
    · simp [handle_preprocessing, hv, hr, hm, hmOk, run, hRi]
    · simp [handle_preprocessing, hv, hr, hm, hmOk, run, hRi]
    · simp [handle_preprocessing, hv, hr, hm, run, hRi]
    · simp [handle_preprocessing, hv, hr, hmOk, run, hRi]
    · intro evs secs hes
      injection hes with h1 h2
      injection h2 with h3
      subst h1
      subst h3
      constructor
      · simp [handle_preprocessing, hv, hr, hm, run, hRi]
      · simp [handle_preprocessing, hv, hr, hm, run, hRi]

/-- C9 witness: with trivially parsing versions and a mismatching range,
the only stderr traffic is the warning. -/
theorem version_mismatch_warning_only_witness :
    (handle_preprocessing (fun _ => Except.ok ()) (fun _ => Except.ok ())
        (fun _ _ => false) [] (Except.ok (defaultCtx, emptyBook))).2.1
      = [ErrEvent.versionMismatchWarning [] defaultCtx.mdbook_version] :=
  (version_mismatch_warning_only (fun _ => Except.ok ()) (fun _ => Except.ok ())
      (fun _ _ => false) (fun _ _ => true) [] defaultCtx emptyBook () ()
      rfl rfl rfl rfl).2.2.1
